import Mathlib

/-!
# P6: pipe multiplexer (src/P6.c)

A shallow embedding of the C program `P6.c`: the timestamp label (`getTime`),
the byte filter (`writeCarefully`), one step of the coordinator's sweep
(`readFromPipes`), the two producers (`writeToPipe`, `lastChild`) and the
descriptor bookkeeping of every process (`makeChildren`).

Conventions.
* A byte is a `Nat` (its value as `unsigned char`).  Every comparison the
  program makes on a `char` (`== 0`, `== 9`, `== 10`, `== 13`, `>= 32 && <= 126`)
  has the same truth value on the unsigned value of the byte whether `char` is
  signed or not, because all of them are false for the values 128..255.
* A buffer is a map `Int → Nat` from an offset relative to `buff` to the byte
  stored there; offset `-1` is the byte in front of the buffer.
* `int` is 32 bits wide; a value stored into an `int` goes through `toInt32`.
* Values the environment supplies (clock readings, what `select` and `read`
  return, the content of the buffer after a read, `errno`) are parameters.
-/

namespace P6

/-! ## Constants (lines 12-22) -/

def numChildren : Nat := 5
def READ_PIPE : Nat := 0
def WRITE_PIPE : Nat := 1
def TIME_TO_RUN : Int := 30
def MAX_SLEEP_TIME : Nat := 2
def TV_WAIT_TIME : Nat := 2
def TIME_BUFF_SIZE : Nat := 10
def BUFF_SIZE : Nat := 1024

/-! ## C library pieces used by the program -/

/-- Conversion of an integer value to a 32-bit `int`. -/
def toInt32 (x : Int) : Int := (x + 2147483648) % 4294967296 - 2147483648

/-- Decimal digits (ASCII codes) of a natural number, most significant first;
the first argument bounds the number of digits. -/
def decDigitsAux : Nat → Nat → List Nat → List Nat
  | 0, _, acc => acc
  | fuel + 1, n, acc =>
    if n < 10 then (48 + n) :: acc
    else decDigitsAux fuel (n / 10) ((48 + n % 10) :: acc)

/-- Decimal digits (ASCII codes) of a natural number. -/
def decDigits (n : Nat) : List Nat := decDigitsAux (n + 1) n []

/-- The conversion `%0<width>d` of `printf` (`%d` is `width = 0`): the decimal
digits padded on the left with `'0'` up to `width` characters, a minus sign
counting as one of them. -/
def fmtD (width : Nat) (v : Int) : List Nat :=
  let ds := decDigits v.natAbs
  if v < 0 then
    45 :: (List.replicate (width - 1 - ds.length) 48 ++ ds)
  else
    List.replicate (width - ds.length) 48 ++ ds

/-- The bytes of a C string stored in `l`: everything before the first NUL. -/
def cstr (l : List Nat) : List Nat := l.takeWhile (fun b => b != 0)

/-- The function `strlen` on the bytes starting at a pointer. -/
def strlen (l : List Nat) : Nat := (cstr l).length

/-- The call `snprintf(dst, size, ...)` whose complete formatted text is `text`:
at most `size - 1` characters are stored, then a NUL; the rest of `dst` keeps
its old content. -/
def snprintfInto (dst : List Nat) (size : Nat) (text : List Nat) : List Nat :=
  if size = 0 then dst
  else
    let t := text.take (size - 1)
    t ++ 0 :: dst.drop (t.length + 1)

/-! ## getTime (lines 59-70) -/

/-- The C `struct timeval`. -/
structure Timeval where
  tv_sec : Int
  tv_usec : Int
deriving DecidableEq

/-- Line 63-66: the `int msSinceStart`, with C's truncating division. -/
def msSinceStart (startTV now : Timeval) : Int :=
  let ms := toInt32 ((now.tv_usec - startTV.tv_usec).tdiv 1000)
  if ms < 0 then
    toInt32 (((now.tv_usec + 1000000) - startTV.tv_usec).tdiv 1000)
  else ms

/-- Line 67: the `int secsSinceStart`. -/
def secsSinceStart (startTV now : Timeval) : Int :=
  toInt32 (now.tv_sec - startTV.tv_sec)

/-- The complete text of the format `"0:%02d.%03d:"` (line 68). -/
def labelText (secs ms : Int) : List Nat :=
  [48, 58] ++ fmtD 2 secs ++ [46] ++ fmtD 3 ms ++ [58]

/-- The function `getTime`: the `TIME_BUFF_SIZE + 1` zeroed bytes of `calloc`
into which `snprintf` stores at most `TIME_BUFF_SIZE - 1` characters of the
label.  `now` is what `gettimeofday` reports. -/
def getTime (startTV now : Timeval) : List Nat :=
  snprintfInto (List.replicate (TIME_BUFF_SIZE + 1) 0) TIME_BUFF_SIZE
    (labelText (secsSinceStart startTV now) (msSinceStart startTV now))

/-! ## writeCarefully (lines 85-99) -/

/-- The two `FILE *` the function writes to: its parameter `stream`, and
`stdout` (the target of `printf` on line 94). -/
inductive Handle where
  | stream
  | stdout
deriving DecidableEq

/-- What the function does to memory and to the output streams, in order. -/
inductive Ev where
  | load (idx : Int)
  | put (h : Handle) (byte : Nat)
deriving DecidableEq

/-- The condition of line 89. -/
def passes (c : Nat) : Bool :=
  c == 9 || c == 10 || c == 13 || (32 ≤ c && c ≤ 126)

/-- Line 94: `printf("buff[i] == %d\n", buff[i])`; the text goes to `stdout`,
whatever `stream` is.  The call is reached only with `buff[i] = 0`, where the
promoted value is 0 for a signed and for an unsigned `char` alike. -/
def printfDiag (c : Nat) : List Ev :=
  ([98, 117, 102, 102, 91, 105, 93, 32, 61, 61, 32] ++ fmtD 0 (c : Int) ++ [10]).map
    (Ev.put Handle.stdout)

/-- One iteration of the loop of lines 88-98, at index `i`.  The operands of
`&&` are evaluated left to right, so `buff[i-1]` is loaded exactly when the
iteration is the last one and `buff[i]` is NUL.  The loads of `buff[i]` in one
iteration are recorded once, and so are those of `buff[i-1]`. -/
def loopBody (buff : Int → Nat) (readVal : Int) (i : Int) : List Ev :=
  let c := buff i
  [Ev.load i] ++
  (if passes c then [Ev.put Handle.stream c] else []) ++
  (if i = readVal - 1 ∧ c ≠ 10 ∧ c ≠ 13 then
    (if c = 0 then
      [Ev.load (i - 1)] ++
      (if buff (i - 1) ≠ 10 ∧ buff (i - 1) ≠ 13 then
        printfDiag c ++ [Ev.put Handle.stream 10]
      else [])
    else [])
  else [])

/-- The loop `for(i = 0; i < readVal; i++)`: `count` iterations are left and
the next index is `i`. -/
def writeLoop (buff : Int → Nat) (readVal : Int) : Nat → Int → List Ev
  | 0, _ => []
  | count + 1, i => loopBody buff readVal i ++ writeLoop buff readVal count (i + 1)

/-- The function `writeCarefully`: `fwrite` of the first `TIME_BUFF_SIZE - 1`
bytes of `timeBuff`, then the loop. -/
def writeCarefully (timeBuff : List Nat) (buff : Int → Nat) (readVal : Int) : List Ev :=
  (timeBuff.take (TIME_BUFF_SIZE - 1)).map (Ev.put Handle.stream) ++
    writeLoop buff readVal readVal.toNat 0

/-- The bytes a trace writes through the handle `h`. -/
def sentTo (h : Handle) : List Ev → List Nat
  | [] => []
  | Ev.put g b :: rest => if g = h then b :: sentTo h rest else sentTo h rest
  | Ev.load _ :: rest => sentTo h rest

/-- All bytes a trace writes, whatever the handle. -/
def emitted : List Ev → List Nat
  | [] => []
  | Ev.put _ b :: rest => b :: emitted rest
  | Ev.load _ :: rest => emitted rest

/-- The buffer offsets a trace loads. -/
def loads : List Ev → List Int
  | [] => []
  | Ev.load i :: rest => i :: loads rest
  | Ev.put _ _ :: rest => loads rest

/-- A buffer holding the bytes `l` at offsets `0, 1, ...`, with `pre` in front
of it and zeroes behind. -/
def memOf (pre : Nat) (l : List Nat) : Int → Nat :=
  fun i => if i < 0 then pre else l.getD i.toNat 0

/-- The bytes at offsets `0 .. n-1` of a buffer. -/
def firstBytes (buff : Int → Nat) (n : Nat) : List Nat :=
  (List.range n).map (fun (k : Nat) => buff (k : Int))

/-- The synthetic newline of lines 92-96, as decided at the last index `i`. -/
def synthAt (buff : Int → Nat) (i : Int) : List Nat :=
  if buff i = 0 ∧ buff (i - 1) ≠ 10 ∧ buff (i - 1) ≠ 13 then [10] else []

/-- The elapsed time between two clock readings, in microseconds. -/
def elapsedMicros (startTV now : Timeval) : Int :=
  (now.tv_sec - startTV.tv_sec) * 1000000 + (now.tv_usec - startTV.tv_usec)

/-! ## readFromPipes, one channel of the sweep (lines 127-145) -/

/-- The content of the three streams the coordinator writes to. -/
structure Streams where
  outputFile : List Nat
  stdout : List Nat
  stderr : List Nat
deriving DecidableEq

/-- The `FILE *` passed as `stream` on lines 137 and 138. -/
inductive Sink where
  | outputFile
  | stdout
deriving DecidableEq

/-- The effect of a trace of `writeCarefully` on the streams, when its
parameter `stream` is bound to `s`. -/
def deliver (s : Sink) : Streams → List Ev → Streams
  | st, [] => st
  | st, Ev.load _ :: rest => deliver s st rest
  | st, Ev.put Handle.stdout b :: rest =>
    deliver s { st with stdout := st.stdout ++ [b] } rest
  | st, Ev.put Handle.stream b :: rest =>
    match s with
    | Sink.outputFile => deliver s { st with outputFile := st.outputFile ++ [b] } rest
    | Sink.stdout => deliver s { st with stdout := st.stdout ++ [b] } rest

/-- What the environment supplies while one channel is visited: the value of
`select`, the value of `read` and the buffer it leaves (with the byte in front
of the buffer at offset `-1`), the clock reading taken by `getTime`, and
`errno`. -/
structure Visit where
  selectVal : Int
  readVal : Int
  buff : Int → Nat
  now : Timeval
  errno : Int

/-- The text of `"select failed with errno %d\n"` (line 132). -/
def selectFailed (errno : Int) : List Nat :=
  [115, 101, 108, 101, 99, 116, 32, 102, 97, 105, 108, 101, 100, 32, 119, 105, 116, 104, 32,
    101, 114, 114, 110, 111, 32] ++ fmtD 0 errno ++ [10]

/-- The text of `"read failed with errno %d\n"` (line 143). -/
def readFailed (errno : Int) : List Nat :=
  [114, 101, 97, 100, 32, 102, 97, 105, 108, 101, 100, 32, 119, 105, 116, 104, 32,
    101, 114, 114, 110, 111, 32] ++ fmtD 0 errno ++ [10]

/-- The body of the `for` loop of `readFromPipes` for one channel
(lines 131-145). -/
def visitChannel (startTV : Timeval) (st : Streams) (v : Visit) : Streams :=
  if v.selectVal = -1 then
    { st with stderr := st.stderr ++ selectFailed v.errno }
  else if v.selectVal ≠ 0 then
    if v.readVal > 0 then
      let timeBuff := getTime startTV v.now
      let st1 := deliver Sink.outputFile st (writeCarefully timeBuff v.buff v.readVal)
      deliver Sink.stdout st1 (writeCarefully timeBuff v.buff v.readVal)
    else
      { st with stderr := st.stderr ++ readFailed v.errno }
  else st

/-- The `for` loop of lines 126-146 over the channels it visits, in order. -/
def sweep (startTV : Timeval) (st : Streams) : List Visit → Streams
  | [] => st
  | v :: rest => sweep startTV (visitChannel startTV st v) rest

/-! ## The producers (lines 176-178 and 204-206) -/

/-- The complete text of the format `"%s Child %d message %d\n"` of line 177. -/
def writeToPipeText (timeBuff : List Nat) (childNum messageNum : Int) : List Nat :=
  cstr timeBuff ++ [32, 67, 104, 105, 108, 100, 32] ++ fmtD 0 childNum ++
    [32, 109, 101, 115, 115, 97, 103, 101, 32] ++ fmtD 0 messageNum ++ [10]

/-- Lines 176-178 of `writeToPipe`: the bytes handed to `write`, where `buff` is
the old content of the local buffer. -/
def writeToPipeMessage (buff : List Nat) (startTV now : Timeval)
    (childNum messageNum : Int) : List Nat :=
  let timeBuff := getTime startTV now
  let buff1 := snprintfInto buff BUFF_SIZE (writeToPipeText timeBuff childNum messageNum)
  buff1.take (strlen buff1 + 1)

/-- The complete text of the format `"%s %s\n"` of line 205. -/
def lastChildText (timeBuff line : List Nat) : List Nat :=
  cstr timeBuff ++ [32] ++ cstr line ++ [10]

/-- Lines 204-206 of `lastChild`: the bytes handed to `write`, where `line` is
the buffer filled by `getline` and `buff` the old content of the local buffer. -/
def lastChildMessage (buff : List Nat) (startTV now : Timeval) (line : List Nat) : List Nat :=
  let timeBuff := getTime startTV now
  let buff1 := snprintfInto buff BUFF_SIZE (lastChildText timeBuff line)
  buff1.take (strlen (buff1.drop 1))

/-! ## Descriptors of the processes (lines 107-153, 161-184, 190-214, 222-240) -/

/-- The two ends of a channel: index `READ_PIPE` and index `WRITE_PIPE`. -/
inductive PipeEnd where
  | rd
  | wr
deriving DecidableEq

/-- The system calls on channel descriptors a process makes. -/
inductive Sys where
  | close (ch : Nat) (e : PipeEnd)
  | select (ch : Nat)
  | read (ch : Nat)
  | write (ch : Nat)
deriving DecidableEq

/-- The open channel descriptors of one process: the pairs (channel, end). -/
abbrev FdTable := List (Nat × PipeEnd)

/-- The table after `getPipes`, inherited unchanged by every child at its
`fork`: both ends of each of the `numChildren` channels are open. -/
def allOpen : FdTable :=
  (List.range numChildren).flatMap (fun ch => [(ch, PipeEnd.rd), (ch, PipeEnd.wr)])

/-- The effect of one call on the table. -/
def applySys (t : FdTable) : Sys → FdTable
  | Sys.close ch e => t.filter (fun d => d != (ch, e))
  | _ => t

/-- The calls of `readFromPipes`: each element of `sweeps` is one iteration of
the `while` loop and tells for which channels `select` reported data; then the
closing loop of lines 148-151. -/
def readFromPipesCalls (sweeps : List (Nat → Bool)) : List Sys :=
  sweeps.flatMap (fun ready =>
    (List.range numChildren).flatMap (fun i =>
      Sys.select i :: (if ready i then [Sys.read i] else []))) ++
  (List.range numChildren).flatMap (fun i =>
    [Sys.close i PipeEnd.wr, Sys.close i PipeEnd.rd])

/-- The calls of `writeToPipe` on channel `ch`, with `iters` loop iterations. -/
def writeToPipeCalls (ch : Nat) (iters : Nat) : List Sys :=
  Sys.close ch PipeEnd.rd :: (List.replicate iters (Sys.write ch) ++ [Sys.close ch PipeEnd.wr])

/-- The calls of `lastChild` on channel `ch`; each element of `gotLine` is one
loop iteration and tells whether `getline` returned a line. -/
def lastChildCalls (ch : Nat) (gotLine : List Bool) : List Sys :=
  Sys.close ch PipeEnd.rd ::
    (gotLine.flatMap (fun g => if g then [Sys.write ch] else []) ++ [Sys.close ch PipeEnd.wr])

/-- The processes `makeChildren` creates when every `fork` succeeds. -/
inductive Proc where
  | parent
  | child (i : Nat)
deriving DecidableEq

/-- The calls of each process in `makeChildren`: child `i` runs `lastChild` when
`i = numChildren - 1` and `writeToPipe` otherwise, the parent runs
`readFromPipes`.  No process closes a descriptor before that. -/
def makeChildrenCalls (sweeps : List (Nat → Bool)) (gotLine : List Bool) (iters : Nat) :
    Proc → List Sys
  | Proc.parent => readFromPipesCalls sweeps
  | Proc.child i =>
    if i = numChildren - 1 then lastChildCalls i gotLine else writeToPipeCalls i iters

/-- Runs a list of calls from table `t` and checks `P` on every call together
with the table the process has when it makes the call. -/
def holdsAtCalls (P : Sys → FdTable → Bool) : FdTable → List Sys → Bool
  | _, [] => true
  | t, c :: rest => P c t && holdsAtCalls P (applySys t c) rest

/-- The table after a list of calls. -/
def tableAfter : FdTable → List Sys → FdTable
  | t, [] => t
  | t, c :: rest => tableAfter (applySys t c) rest

/-- The call is a readiness wait or a read. -/
def isWait : Sys → Bool
  | Sys.select _ => true
  | Sys.read _ => true
  | _ => false

/-- The call is a write. -/
def isWrite : Sys → Bool
  | Sys.write _ => true
  | _ => false

/-- Every write end of the `numChildren` channels is closed in `t`. -/
def writeEndsClosed (t : FdTable) : Bool :=
  (List.range numChildren).all (fun ch => !t.contains (ch, PipeEnd.wr))

/-- Every write end of the `numChildren` channels is open in `t`. -/
def writeEndsOpen (t : FdTable) : Bool :=
  (List.range numChildren).all (fun ch => t.contains (ch, PipeEnd.wr))

/-! # Theorems -/

/-! ## Facts about traces -/

theorem sentTo_append (h : Handle) (a b : List Ev) :
    sentTo h (a ++ b) = sentTo h a ++ sentTo h b := by
  induction a with
  | nil => rfl
  | cons e rest ih =>
    cases e with
    | load i => simpa [sentTo] using ih
    | put g c =>
      by_cases hg : g = h
      · simp [sentTo, hg, ih]
      · simp [sentTo, hg, ih]

theorem sentTo_map_put (h : Handle) (l : List Nat) :
    sentTo h (l.map (Ev.put h)) = l := by
  induction l with
  | nil => rfl
  | cons b rest ih => simp [sentTo, ih]

theorem sentTo_stream_map_stdout (l : List Nat) :
    sentTo Handle.stream (l.map (Ev.put Handle.stdout)) = [] := by
  induction l with
  | nil => rfl
  | cons b rest ih => simp [sentTo, ih]

theorem sentTo_stream_printfDiag (c : Nat) :
    sentTo Handle.stream (printfDiag c) = [] := by
  unfold printfDiag
  exact sentTo_stream_map_stdout _

theorem sentTo_loopBody (buff : Int → Nat) (readVal i : Int) :
    sentTo Handle.stream (loopBody buff readVal i) =
      (if passes (buff i) then [buff i] else []) ++
        (if i = readVal - 1 then synthAt buff i else []) := by
  unfold loopBody synthAt
  simp only [sentTo_append]
  split_ifs <;>
    simp_all [sentTo, sentTo_append, sentTo_stream_printfDiag]

theorem sentTo_writeLoop (buff : Int → Nat) (readVal : Int) :
    ∀ (count : Nat) (i : Int), i + count = readVal →
      sentTo Handle.stream (writeLoop buff readVal count i) =
        ((List.range count).map (fun (k : Nat) => buff (i + (k : Int)))).filter passes ++
          (if count = 0 then [] else synthAt buff (readVal - 1)) := by
  intro count
  induction count with
  | zero => intro i _; simp [writeLoop, sentTo]
  | succ c ih =>
    intro i hi
    have hstep := ih (i + 1) (by push_cast at hi; omega)
    simp only [writeLoop, sentTo_append, hstep, sentTo_loopBody]
    rw [List.range_succ_eq_map]
    simp only [List.map_cons, List.map_map]
    have hfun : ((fun k : Nat => buff (i + (k : Int))) ∘ Nat.succ) =
        (fun k : Nat => buff (i + 1 + (k : Int))) := by
      funext k
      simp only [Function.comp, Nat.succ_eq_add_one]
      congr 1
      push_cast
      ring
    rw [hfun]
    by_cases hc : c = 0
    · subst hc
      have hlast : readVal - 1 = i := by push_cast at hi; omega
      by_cases hp : passes (buff i) = true <;> simp [hp, hlast]
    · have hne : i ≠ readVal - 1 := by push_cast at hi; omega
      by_cases hp : passes (buff i) = true <;> simp [hp, hne, hc]

theorem sentTo_writeCarefully (timeBuff : List Nat) (buff : Int → Nat) (readVal : Int) :
    sentTo Handle.stream (writeCarefully timeBuff buff readVal) =
      timeBuff.take 9 ++ ((firstBytes buff readVal.toNat).filter passes ++
        (if readVal ≤ 0 then [] else synthAt buff (readVal - 1))) := by
  unfold writeCarefully firstBytes
  rw [sentTo_append, sentTo_map_put]
  by_cases h : readVal ≤ 0
  · have h0 : readVal.toNat = 0 := by omega
    simp [h0, h, writeLoop, sentTo, TIME_BUFF_SIZE]
  · have hn : (0 : Int) + (readVal.toNat : Nat) = readVal := by omega
    rw [sentTo_writeLoop buff readVal readVal.toNat 0 hn]
    have h0 : readVal.toNat ≠ 0 := by omega
    simp [h, h0, TIME_BUFF_SIZE]

theorem passes_iff (b : Nat) :
    passes b = true ↔ (b = 9 ∨ b = 10 ∨ b = 13 ∨ (32 ≤ b ∧ b ≤ 126)) := by
  simp [passes, or_assoc]

theorem emitted_append (a b : List Ev) : emitted (a ++ b) = emitted a ++ emitted b := by
  induction a with
  | nil => rfl
  | cons e rest ih => cases e <;> simp [emitted, ih]

theorem emitted_map_put (h : Handle) (l : List Nat) : emitted (l.map (Ev.put h)) = l := by
  induction l with
  | nil => rfl
  | cons b rest ih => simp [emitted, ih]

theorem emitted_printfDiag_zero :
    emitted (printfDiag 0) = [98, 117, 102, 102, 91, 105, 93, 32, 61, 61, 32, 48, 10] := by
  decide

theorem emitted_loopBody_passes (buff : Int → Nat) (readVal i : Int) :
    ∀ b ∈ emitted (loopBody buff readVal i), passes b = true := by
  unfold loopBody
  by_cases h0 : buff i = 0
  · simp only [h0, emitted_append]
    split_ifs with h1 <;>
      first
        | exact absurd h1 (by decide)
        | simp [emitted, emitted_printfDiag_zero, emitted_append, passes]
  · simp only [emitted_append]
    split_ifs with h1 <;> simp_all [emitted]

theorem emitted_writeLoop_passes (buff : Int → Nat) (readVal : Int) :
    ∀ (count : Nat) (i : Int), ∀ b ∈ emitted (writeLoop buff readVal count i),
      passes b = true := by
  intro count
  induction count with
  | zero => intro i b hb; simp [writeLoop, emitted] at hb
  | succ c ih =>
    intro i b hb
    simp only [writeLoop, emitted_append, List.mem_append] at hb
    rcases hb with hb | hb
    · exact emitted_loopBody_passes buff readVal i b hb
    · exact ih (i + 1) b hb


theorem emitted_writeCarefully (timeBuff : List Nat) (buff : Int → Nat) (readVal : Int) :
    emitted (writeCarefully timeBuff buff readVal) =
      timeBuff.take (TIME_BUFF_SIZE - 1) ++ emitted (writeLoop buff readVal readVal.toNat 0) := by
  unfold writeCarefully
  rw [emitted_append, emitted_map_put]

theorem filter_passes_eq (l : List Nat) :
    l.filter (fun b => decide (b = 9 ∨ b = 10 ∨ b = 13 ∨ (32 ≤ b ∧ b ≤ 126))) =
      l.filter passes := by
  congr 1
  funext b
  rw [Bool.eq_iff_iff]
  simp [passes_iff]

theorem synthAt_cases (buff : Int → Nat) (i : Int) :
    synthAt buff i = [] ∨ synthAt buff i = [10] := by
  unfold synthAt
  split_ifs <;> simp

/-- The bytes `writeCarefully` writes through its parameter `stream`, for every
buffer and every read length of at least 1: the first 9 bytes of the label,
then the bytes at offsets `0 .. readVal-1` whose value is 9, 10, 13 or in
32..126, in their order, then nothing or one synthetic newline; and every byte
the function emits after the label, on any handle, has a value in that set. -/
theorem writeCarefully_filters_bytes (timeBuff : List Nat) (buff : Int → Nat) (readVal : Int)
    (hlo : 1 ≤ readVal) :
    (∃ synth : List Nat, (synth = [] ∨ synth = [10]) ∧
      sentTo Handle.stream (writeCarefully timeBuff buff readVal) =
        timeBuff.take (TIME_BUFF_SIZE - 1) ++
          ((firstBytes buff readVal.toNat).filter
              (fun b => decide (b = 9 ∨ b = 10 ∨ b = 13 ∨ (32 ≤ b ∧ b ≤ 126))) ++ synth)) ∧
    (∃ rest : List Nat,
      emitted (writeCarefully timeBuff buff readVal) =
        timeBuff.take (TIME_BUFF_SIZE - 1) ++ rest ∧
      ∀ b ∈ rest, b = 9 ∨ b = 10 ∨ b = 13 ∨ (32 ≤ b ∧ b ≤ 126)) := by
  have hpos : ¬ readVal ≤ 0 := by omega
  refine ⟨⟨synthAt buff (readVal - 1), synthAt_cases buff (readVal - 1), ?_⟩,
    ⟨emitted (writeLoop buff readVal readVal.toNat 0), emitted_writeCarefully _ _ _, ?_⟩⟩
  · rw [sentTo_writeCarefully, filter_passes_eq, if_neg hpos]
    rfl
  · intro b hb
    exact (passes_iff b).mp (emitted_writeLoop_passes buff readVal _ _ b hb)

/-- C1 (evaluation at the failing input): with `stream` bound to standard
output, as on line 138, and a read of the 3 bytes 72,101,0, the console gains
the label, `He`, the line `buff[i] == 0` and the newline: the bytes after the
label are not the filtered bytes `He` followed by nothing or by one newline.
With `stream` bound to the log file, the file gains the label, `He` and the
newline. -/
theorem writeCarefully_console_gets_diagnostic :
    (firstBytes (memOf 65 [72, 101, 0]) 3).filter passes = [72, 101] ∧
    (deliver Sink.stdout ⟨[], [], []⟩
        (writeCarefully (getTime ⟨0, 0⟩ ⟨1, 5000⟩) (memOf 65 [72, 101, 0]) 3)).stdout =
      [48, 58, 48, 49, 46, 48, 48, 53, 58] ++
        ([72, 101] ++ [98, 117, 102, 102, 91, 105, 93, 32, 61, 61, 32, 48, 10] ++ [10]) ∧
    (deliver Sink.stdout ⟨[], [], []⟩
        (writeCarefully (getTime ⟨0, 0⟩ ⟨1, 5000⟩) (memOf 65 [72, 101, 0]) 3)).stdout ≠
      [48, 58, 48, 49, 46, 48, 48, 53, 58] ++ ([72, 101] ++ []) ∧
    (deliver Sink.stdout ⟨[], [], []⟩
        (writeCarefully (getTime ⟨0, 0⟩ ⟨1, 5000⟩) (memOf 65 [72, 101, 0]) 3)).stdout ≠
      [48, 58, 48, 49, 46, 48, 48, 53, 58] ++ ([72, 101] ++ [10]) ∧
    (deliver Sink.outputFile ⟨[], [], []⟩
        (writeCarefully (getTime ⟨0, 0⟩ ⟨1, 5000⟩) (memOf 65 [72, 101, 0]) 3)).outputFile =
      [48, 58, 48, 49, 46, 48, 48, 53, 58] ++ ([72, 101] ++ [10]) := by
  decide

/-- C2: for every read of at least 2 bytes, what `writeCarefully` writes to
its stream after the label is the filtered bytes followed by exactly one
newline when the last byte read is NUL and the byte before it is neither 10
nor 13, and by nothing otherwise.  The bytes 72,101,0,10 give 72,101,10 with
no synthetic newline; the bytes 72,101,0 give 72,101 and one synthetic
newline. -/
theorem writeCarefully_synthetic_newline (timeBuff : List Nat) (buff : Int → Nat)
    (readVal : Int) (hn : 2 ≤ readVal) :
    sentTo Handle.stream (writeCarefully timeBuff buff readVal) =
      timeBuff.take (TIME_BUFF_SIZE - 1) ++
        ((firstBytes buff readVal.toNat).filter passes ++
          (if buff (readVal - 1) = 0 ∧ buff (readVal - 2) ≠ 10 ∧ buff (readVal - 2) ≠ 13
            then [10] else [])) ∧
    (∀ pre : Nat,
      (firstBytes (memOf pre [72, 101, 0, 10]) 4).filter passes = [72, 101, 10] ∧
      sentTo Handle.stream (writeCarefully timeBuff (memOf pre [72, 101, 0, 10]) 4) =
        timeBuff.take (TIME_BUFF_SIZE - 1) ++ ([72, 101, 10] ++ [])) ∧
    (∀ pre : Nat,
      (firstBytes (memOf pre [72, 101, 0]) 3).filter passes = [72, 101] ∧
      sentTo Handle.stream (writeCarefully timeBuff (memOf pre [72, 101, 0]) 3) =
        timeBuff.take (TIME_BUFF_SIZE - 1) ++ ([72, 101] ++ [10])) := by
  have hpos : ¬ readVal ≤ 0 := by omega
  refine ⟨?_, ?_, ?_⟩
  · rw [sentTo_writeCarefully, if_neg hpos]
    have h2 : readVal - 1 - 1 = readVal - 2 := by ring
    simp only [synthAt, h2]
    rfl
  · intro pre
    refine ⟨rfl, ?_⟩
    rw [sentTo_writeCarefully]
    rfl
  · intro pre
    refine ⟨rfl, ?_⟩
    rw [sentTo_writeCarefully]
    rfl

/-- Witness of C2: a read of the 2 bytes 7, 0 after an empty label. -/
theorem writeCarefully_synthetic_newline_witness :
    (2 : Int) ≤ 2 ∧
    sentTo Handle.stream (writeCarefully [] (memOf 65 [7, 0]) 2) = [10] :=
  ⟨by decide,
    ((writeCarefully_synthetic_newline [] (memOf 65 [7, 0]) 2 (by decide)).1).trans (by decide)⟩

/-! ## The timestamp label -/

theorem toInt32_of_small (x : Int) (h1 : -2147483648 ≤ x) (h2 : x < 2147483648) :
    toInt32 x = x := by
  unfold toInt32
  omega

theorem tdiv_thousand (d : Int) :
    d.tdiv 1000 = if 0 ≤ d then d / 1000 else -((-d) / 1000) := by
  split_ifs with h
  · exact Int.tdiv_eq_ediv h (by decide)
  · have hneg : 0 ≤ -d := by omega
    have h1 := Int.neg_tdiv (-d) 1000
    rw [neg_neg, Int.tdiv_eq_ediv hneg (by decide)] at h1
    exact h1

theorem msSinceStart_range (startTV now : Timeval)
    (hs : 0 ≤ startTV.tv_usec ∧ startTV.tv_usec ≤ 999999)
    (hn : 0 ≤ now.tv_usec ∧ now.tv_usec ≤ 999999) :
    0 ≤ msSinceStart startTV now ∧ msSinceStart startTV now ≤ 999 := by
  unfold msSinceStart
  simp only [tdiv_thousand]
  have hq : -999 ≤ (if 0 ≤ now.tv_usec - startTV.tv_usec
        then (now.tv_usec - startTV.tv_usec) / 1000
        else -((-(now.tv_usec - startTV.tv_usec)) / 1000)) ∧
      (if 0 ≤ now.tv_usec - startTV.tv_usec
        then (now.tv_usec - startTV.tv_usec) / 1000
        else -((-(now.tv_usec - startTV.tv_usec)) / 1000)) ≤ 999 := by
    split_ifs <;> omega
  rw [toInt32_of_small _ (by omega) (by omega)]
  by_cases hd : 0 ≤ now.tv_usec - startTV.tv_usec
  · rw [if_pos hd]
    rw [if_neg (by omega)]
    omega
  · rw [if_neg hd]
    by_cases hlt : -((-(now.tv_usec - startTV.tv_usec)) / 1000) < 0
    · rw [if_pos hlt]
      have h2 : 0 ≤ now.tv_usec + 1000000 - startTV.tv_usec := by omega
      rw [if_pos h2, toInt32_of_small _ (by omega) (by omega)]
      omega
    · rw [if_neg hlt]
      omega

/-- C3 (evaluation at the failing input): for the mark (10 s, 900000 us) and
the current time (11 s, 100000 us), 200 ms after the mark, `getTime` labels
1 second and 200 milliseconds: the seconds value is the plain difference of
the second fields, no second is borrowed, and `S*1000 + M` is 1200 instead of
the elapsed 200 milliseconds. -/
theorem getTime_seconds_not_borrowed :
    elapsedMicros ⟨10, 900000⟩ ⟨11, 100000⟩ = 200000 ∧
    secsSinceStart ⟨10, 900000⟩ ⟨11, 100000⟩ = 11 - 10 ∧
    msSinceStart ⟨10, 900000⟩ ⟨11, 100000⟩ = 200 ∧
    secsSinceStart ⟨10, 900000⟩ ⟨11, 100000⟩ * 1000 + msSinceStart ⟨10, 900000⟩ ⟨11, 100000⟩
      = 1200 ∧
    secsSinceStart ⟨10, 900000⟩ ⟨11, 100000⟩ * 1000 + msSinceStart ⟨10, 900000⟩ ⟨11, 100000⟩
      ≠ elapsedMicros ⟨10, 900000⟩ ⟨11, 100000⟩ / 1000 := by
  decide

/-- C4: for every mark and current time whose microsecond fields are in
0..999999, the millisecond value `getTime` computes (with truncating division)
is in 0..999; for the mark (10 s, 900000 us) and the time (11 s, 100000 us) the
values are 1 second and 200 milliseconds and the label is `0:01.200:`. -/
theorem getTime_millis_in_range (startTV now : Timeval)
    (hs : 0 ≤ startTV.tv_usec ∧ startTV.tv_usec ≤ 999999)
    (hn : 0 ≤ now.tv_usec ∧ now.tv_usec ≤ 999999) :
    (0 ≤ msSinceStart startTV now ∧ msSinceStart startTV now ≤ 999) ∧
    secsSinceStart ⟨10, 900000⟩ ⟨11, 100000⟩ = 1 ∧
    msSinceStart ⟨10, 900000⟩ ⟨11, 100000⟩ = 200 ∧
    getTime ⟨10, 900000⟩ ⟨11, 100000⟩ = [48, 58, 48, 49, 46, 50, 48, 48, 58, 0, 0] :=
  ⟨msSinceStart_range startTV now hs hn, by decide, by decide, by decide⟩

/-- Witness of C4: the mark (3 s, 999999 us) and the time (4 s, 500 us). -/
theorem getTime_millis_in_range_witness :
    ((0 : Int) ≤ 999999 ∧ (999999 : Int) ≤ 999999) ∧ ((0 : Int) ≤ 500 ∧ (500 : Int) ≤ 999999) ∧
    (0 ≤ msSinceStart ⟨3, 999999⟩ ⟨4, 500⟩ ∧ msSinceStart ⟨3, 999999⟩ ⟨4, 500⟩ ≤ 999) :=
  ⟨by decide, by decide,
    (getTime_millis_in_range ⟨3, 999999⟩ ⟨4, 500⟩ (by decide) (by decide)).1⟩

theorem fmtD_two : ∀ s : Nat, s < 100 →
    fmtD 2 (Int.ofNat s) = [48 + s / 10, 48 + s % 10] := by
  decide

set_option maxRecDepth 100000 in
theorem fmtD_three : ∀ m : Nat, m < 1000 →
    fmtD 3 (Int.ofNat m) = [48 + m / 100, 48 + m / 10 % 10, 48 + m % 10] := by
  decide

theorem getTime_of_values (startTV now : Timeval) (S M : Nat)
    (hS : secsSinceStart startTV now = (S : Int)) (hM : msSinceStart startTV now = (M : Int))
    (hS99 : S ≤ 99) (hM999 : M ≤ 999) :
    getTime startTV now =
      [48, 58, 48 + S / 10, 48 + S % 10, 46, 48 + M / 100, 48 + M / 10 % 10, 48 + M % 10, 58,
        0, 0] := by
  unfold getTime labelText
  rw [hS, hM]
  have h2 := fmtD_two S (by omega)
  have h3 := fmtD_three M (by omega)
  simp only [Int.ofNat_eq_coe] at h2 h3
  rw [h2, h3]
  rfl

theorem clock_of_values (S M : Nat) (hS99 : S ≤ 99) (hM999 : M ≤ 999) :
    secsSinceStart ⟨0, 0⟩ ⟨(S : Int), 1000 * (M : Int)⟩ = (S : Int) ∧
    msSinceStart ⟨0, 0⟩ ⟨(S : Int), 1000 * (M : Int)⟩ = (M : Int) := by
  constructor
  · unfold secsSinceStart
    exact toInt32_of_small _ (by simp only; omega) (by simp only; omega)
  · unfold msSinceStart
    simp only [tdiv_thousand]
    have hq : (if (0 : Int) ≤ 1000 * (M : Int) - 0 then (1000 * (M : Int) - 0) / 1000
        else -((-(1000 * (M : Int) - 0)) / 1000)) = (M : Int) := by
      split_ifs <;> omega
    have hq2 : (if (0 : Int) ≤ 1000 * (M : Int) + 1000000 - 0
        then (1000 * (M : Int) + 1000000 - 0) / 1000
        else -((-(1000 * (M : Int) + 1000000 - 0)) / 1000)) = (M : Int) + 1000 := by
      split_ifs <;> omega
    rw [hq, hq2, toInt32_of_small _ (by omega) (by omega)]
    rw [if_neg (by omega)]

/-- C5: for every seconds value `S` in 0..99 and every millisecond value `M`
in 0..999, the text of the format is the 9 characters `0`, `:`, the two
decimal digits of `S`, `.`, the three decimal digits of `M`, `:`; the values
are those of some clock readings; and for all clock readings with these
values the buffer `getTime` returns holds these 9 characters (none cut by the
size given to `snprintf`) followed by zero bytes, and these 9 characters are
what `writeCarefully` writes to its stream in front of the filtered message
bytes. -/
theorem getTime_label_nine_chars (S M : Nat) (hS99 : S ≤ 99) (hM999 : M ≤ 999) :
    labelText (S : Int) (M : Int) =
      [48, 58, 48 + S / 10, 48 + S % 10, 46, 48 + M / 100, 48 + M / 10 % 10, 48 + M % 10, 58] ∧
    (secsSinceStart ⟨0, 0⟩ ⟨(S : Int), 1000 * (M : Int)⟩ = (S : Int) ∧
      msSinceStart ⟨0, 0⟩ ⟨(S : Int), 1000 * (M : Int)⟩ = (M : Int)) ∧
    ∀ startTV now : Timeval,
      secsSinceStart startTV now = (S : Int) → msSinceStart startTV now = (M : Int) →
      getTime startTV now =
        [48, 58, 48 + S / 10, 48 + S % 10, 46, 48 + M / 100, 48 + M / 10 % 10, 48 + M % 10, 58]
          ++ [0, 0] ∧
      cstr (getTime startTV now) =
        [48, 58, 48 + S / 10, 48 + S % 10, 46, 48 + M / 100, 48 + M / 10 % 10, 48 + M % 10, 58] ∧
      ∀ (buff : Int → Nat) (readVal : Int),
        sentTo Handle.stream (writeCarefully (getTime startTV now) buff readVal) =
          [48, 58, 48 + S / 10, 48 + S % 10, 46, 48 + M / 100, 48 + M / 10 % 10, 48 + M % 10, 58]
            ++ ((firstBytes buff readVal.toNat).filter passes ++
              (if readVal ≤ 0 then [] else synthAt buff (readVal - 1))) := by
  refine ⟨?_, clock_of_values S M hS99 hM999, ?_⟩
  · unfold labelText
    have h2 := fmtD_two S (by omega)
    have h3 := fmtD_three M (by omega)
    simp only [Int.ofNat_eq_coe] at h2 h3
    rw [h2, h3]
    rfl
  · intro startTV now hS hM
    have hg := getTime_of_values startTV now S M hS hM hS99 hM999
    refine ⟨hg, ?_, ?_⟩
    · rw [hg]
      simp [cstr, List.takeWhile_cons]
    · intro buff readVal
      rw [sentTo_writeCarefully, hg]
      rfl

/-- Witness of C5: 42 seconds and 7 milliseconds give the label `0:42.007:`. -/
theorem getTime_label_nine_chars_witness :
    42 ≤ 99 ∧ 7 ≤ 999 ∧
    labelText ((42 : Nat) : Int) ((7 : Nat) : Int) = [48, 58, 52, 50, 46, 48, 48, 55, 58] ∧
    getTime ⟨100, 250000⟩ ⟨142, 257999⟩ = [48, 58, 52, 50, 46, 48, 48, 55, 58] ++ [0, 0] :=
  ⟨by decide, by decide,
    (getTime_label_nine_chars 42 7 (by decide) (by decide)).1,
    ((getTime_label_nine_chars 42 7 (by decide) (by decide)).2.2
      ⟨100, 250000⟩ ⟨142, 257999⟩ (by decide) (by decide)).1⟩

/-! ## Buffer offsets loaded by writeCarefully -/

theorem loads_append (a b : List Ev) : loads (a ++ b) = loads a ++ loads b := by
  induction a with
  | nil => rfl
  | cons e rest ih => cases e <;> simp [loads, ih]

theorem loads_map_put (h : Handle) (l : List Nat) : loads (l.map (Ev.put h)) = [] := by
  induction l with
  | nil => rfl
  | cons b rest ih => simp [loads, ih]

theorem loads_printfDiag (c : Nat) : loads (printfDiag c) = [] := by
  unfold printfDiag
  exact loads_map_put _ _

theorem loads_loopBody (buff : Int → Nat) (readVal i : Int) :
    ∀ j ∈ loads (loopBody buff readVal i), j = i ∨ (j = i - 1 ∧ i = readVal - 1) := by
  intro j hj
  unfold loopBody at hj
  simp only [loads_append, List.mem_append] at hj
  rcases hj with (hj | hj) | hj
  · left
    simpa [loads] using hj
  · split_ifs at hj <;> simp [loads] at hj
  · split_ifs at hj with hA hB hC
    · rw [loads_append, loads_append, loads_printfDiag] at hj
      simp only [loads, List.nil_append, List.append_nil, List.mem_singleton] at hj
      exact Or.inr ⟨hj, hA.1⟩
    · simp only [loads, List.append_nil, List.mem_singleton] at hj
      exact Or.inr ⟨hj, hA.1⟩
    · simp [loads] at hj
    · simp [loads] at hj

theorem loads_writeLoop (buff : Int → Nat) (readVal : Int) (h2 : 2 ≤ readVal) :
    ∀ (count : Nat) (i : Int), 0 ≤ i → i + count = readVal →
      ∀ j ∈ loads (writeLoop buff readVal count i), 0 ≤ j ∧ j < readVal := by
  intro count
  induction count with
  | zero => intro i _ _ j hj; simp [writeLoop, loads] at hj
  | succ c ih =>
    intro i hi0 hi j hj
    simp only [writeLoop, loads_append, List.mem_append] at hj
    push_cast at hi
    rcases hj with hj | hj
    · rcases loads_loopBody buff readVal i j hj with h | ⟨h, hlast⟩
      · omega
      · omega
    · exact ih (i + 1) (by omega) (by omega) j hj

theorem loads_writeCarefully_in_range (timeBuff : List Nat) (buff : Int → Nat) (readVal : Int)
    (h2 : 2 ≤ readVal) :
    ∀ j ∈ loads (writeCarefully timeBuff buff readVal), 0 ≤ j ∧ j < readVal := by
  intro j hj
  unfold writeCarefully at hj
  rw [loads_append, loads_map_put, List.nil_append] at hj
  exact loads_writeLoop buff readVal h2 readVal.toNat 0 (le_refl 0) (by omega) j hj

/-- C10 (evaluation at the failing input): for a read of one byte that is NUL,
`writeCarefully` loads offset 0 and then offset -1, the byte in front of the
buffer. -/
theorem writeCarefully_loads_before_buffer :
    loads (writeCarefully (getTime ⟨0, 0⟩ ⟨0, 0⟩) (memOf 65 [0]) 1) = [0, -1] := by
  decide

/-! ## The coordinator's sweep -/

theorem deliver_stderr (s : Sink) (tr : List Ev) :
    ∀ st : Streams, (deliver s st tr).stderr = st.stderr := by
  induction tr with
  | nil => intro st; rfl
  | cons e rest ih =>
    intro st
    cases e with
    | load i => simpa [deliver] using ih st
    | put h b =>
      cases h <;> cases s <;> simp [deliver, ih]

/-! ## What reaches the log file and the console -/

theorem deliver_outputFile (tr : List Ev) :
    ∀ st : Streams, deliver Sink.outputFile st tr =
      ⟨st.outputFile ++ sentTo Handle.stream tr, st.stdout ++ sentTo Handle.stdout tr,
        st.stderr⟩ := by
  induction tr with
  | nil => intro st; simp [deliver, sentTo]
  | cons e rest ih =>
    intro st
    cases e with
    | load i => simpa [deliver, sentTo] using ih st
    | put h b => cases h <;> simp [deliver, sentTo, ih]

theorem deliver_stdout (tr : List Ev) :
    ∀ st : Streams, deliver Sink.stdout st tr =
      ⟨st.outputFile, st.stdout ++ emitted tr, st.stderr⟩ := by
  induction tr with
  | nil => intro st; simp [deliver, emitted]
  | cons e rest ih =>
    intro st
    cases e with
    | load i => simpa [deliver, emitted] using ih st
    | put h b => cases h <;> simp [deliver, emitted, ih]

theorem sentTo_stdout_map_stream (l : List Nat) :
    sentTo Handle.stdout (l.map (Ev.put Handle.stream)) = [] := by
  induction l with
  | nil => rfl
  | cons b rest ih => simp [sentTo, ih]

theorem sentTo_stdout_printfDiag (c : Nat) :
    sentTo Handle.stdout (printfDiag c) = emitted (printfDiag c) := by
  unfold printfDiag
  rw [sentTo_map_put, emitted_map_put]

theorem sentTo_stdout_loopBody (buff : Int → Nat) (readVal i : Int) :
    sentTo Handle.stdout (loopBody buff readVal i) =
      (if i = readVal - 1 ∧ synthAt buff i ≠ [] then emitted (printfDiag 0) else []) := by
  unfold loopBody synthAt
  by_cases h0 : buff i = 0
  · simp only [h0, sentTo_append]
    split_ifs <;>
      simp_all [sentTo, sentTo_append, sentTo_stdout_printfDiag, emitted_printfDiag_zero]
  · simp only [sentTo_append]
    split_ifs <;> simp_all [sentTo]

theorem emitted_loopBody (buff : Int → Nat) (readVal i : Int) :
    emitted (loopBody buff readVal i) =
      (if passes (buff i) then [buff i] else []) ++
        ((if i = readVal - 1 ∧ synthAt buff i ≠ [] then emitted (printfDiag 0) else []) ++
          (if i = readVal - 1 then synthAt buff i else [])) := by
  unfold loopBody synthAt
  by_cases h0 : buff i = 0
  · simp only [h0, emitted_append]
    split_ifs <;> simp_all [emitted, emitted_append, emitted_printfDiag_zero]
  · simp only [emitted_append]
    split_ifs <;> simp_all [emitted]

theorem sentTo_stdout_writeLoop (buff : Int → Nat) (readVal : Int) :
    ∀ (count : Nat) (i : Int), i + count = readVal →
      sentTo Handle.stdout (writeLoop buff readVal count i) =
        (if count ≠ 0 ∧ synthAt buff (readVal - 1) ≠ [] then emitted (printfDiag 0) else []) := by
  intro count
  induction count with
  | zero => intro i _; simp [writeLoop, sentTo]
  | succ c ih =>
    intro i hi
    have hstep := ih (i + 1) (by push_cast at hi; omega)
    simp only [writeLoop, sentTo_append, hstep, sentTo_stdout_loopBody]
    by_cases hc : c = 0
    · subst hc
      have hlast : readVal - 1 = i := by push_cast at hi; omega
      simp [hlast]
    · have hne : i ≠ readVal - 1 := by push_cast at hi; omega
      simp [hne, hc]

theorem emitted_writeLoop (buff : Int → Nat) (readVal : Int) :
    ∀ (count : Nat) (i : Int), i + count = readVal →
      emitted (writeLoop buff readVal count i) =
        ((List.range count).map (fun (k : Nat) => buff (i + (k : Int)))).filter passes ++
          ((if count ≠ 0 ∧ synthAt buff (readVal - 1) ≠ [] then emitted (printfDiag 0) else []) ++
            (if count = 0 then [] else synthAt buff (readVal - 1))) := by
  intro count
  induction count with
  | zero => intro i _; simp [writeLoop, emitted]
  | succ c ih =>
    intro i hi
    have hstep := ih (i + 1) (by push_cast at hi; omega)
    simp only [writeLoop, emitted_append, hstep, emitted_loopBody]
    rw [List.range_succ_eq_map]
    simp only [List.map_cons, List.map_map]
    have hfun : ((fun k : Nat => buff (i + (k : Int))) ∘ Nat.succ) =
        (fun k : Nat => buff (i + 1 + (k : Int))) := by
      funext k
      simp only [Function.comp, Nat.succ_eq_add_one]
      congr 1
      push_cast
      ring
    rw [hfun]
    by_cases hc : c = 0
    · subst hc
      have hlast : readVal - 1 = i := by push_cast at hi; omega
      by_cases hp : passes (buff i) = true <;> simp [hp, hlast]
    · have hne : i ≠ readVal - 1 := by push_cast at hi; omega
      by_cases hp : passes (buff i) = true <;> simp [hp, hne, hc]

/-- What one successful read adds to the log file and to standard output: the
log file gains the label, the filtered bytes and the synthetic newline if
there is one; standard output gains the same bytes, and, when there is a
synthetic newline, the line `buff[i] == 0` twice: once in front (printed by
the call for the log file) and once just before the newline. -/
theorem visitChannel_forwards (startTV : Timeval) (st : Streams) (v : Visit)
    (hsel : v.selectVal ≠ -1 ∧ v.selectVal ≠ 0) (hread : 0 < v.readVal) :
    (visitChannel startTV st v).outputFile =
      st.outputFile ++ ((getTime startTV v.now).take (TIME_BUFF_SIZE - 1) ++
        ((firstBytes v.buff v.readVal.toNat).filter passes ++ synthAt v.buff (v.readVal - 1))) ∧
    (visitChannel startTV st v).stdout =
      st.stdout ++
        ((if synthAt v.buff (v.readVal - 1) ≠ [] then emitted (printfDiag 0) else []) ++
          ((getTime startTV v.now).take (TIME_BUFF_SIZE - 1) ++
            ((firstBytes v.buff v.readVal.toNat).filter passes ++
              ((if synthAt v.buff (v.readVal - 1) ≠ [] then emitted (printfDiag 0) else []) ++
                synthAt v.buff (v.readVal - 1))))) := by
  have hn : (0 : Int) + (v.readVal.toNat : Nat) = v.readVal := by omega
  have h0 : v.readVal.toNat ≠ 0 := by omega
  have hpos : ¬ v.readVal ≤ 0 := by omega
  have hgt : v.readVal > 0 := hread
  have hfile := sentTo_writeCarefully (getTime startTV v.now) v.buff v.readVal
  rw [if_neg hpos] at hfile
  have hout : sentTo Handle.stdout (writeCarefully (getTime startTV v.now) v.buff v.readVal) =
      (if synthAt v.buff (v.readVal - 1) ≠ [] then emitted (printfDiag 0) else []) := by
    unfold writeCarefully
    rw [sentTo_append, sentTo_stdout_map_stream, sentTo_stdout_writeLoop _ _ _ _ hn]
    simp [h0]
  have hall : emitted (writeCarefully (getTime startTV v.now) v.buff v.readVal) =
      (getTime startTV v.now).take (TIME_BUFF_SIZE - 1) ++
        ((firstBytes v.buff v.readVal.toNat).filter passes ++
          ((if synthAt v.buff (v.readVal - 1) ≠ [] then emitted (printfDiag 0) else []) ++
            synthAt v.buff (v.readVal - 1))) := by
    rw [emitted_writeCarefully, emitted_writeLoop _ _ _ _ hn]
    simp [h0, firstBytes]
  unfold visitChannel
  rw [if_neg hsel.1, if_pos hsel.2, if_pos hgt]
  simp only [deliver_outputFile, deliver_stdout, hfile, hout, hall]
  constructor
  · rfl
  · simp only [List.append_assoc]

/-- C6 (evaluation at the failing input): for a successful read of the 3
bytes 72,101,0 the log file gains the label and `He` and a newline, while
standard output gains the line `buff[i] == 0` (printed during the call for
the log file), the label, `He`, the line `buff[i] == 0` again, and the
newline: the two differ. -/
theorem readFromPipes_stdout_differs_from_log :
    (visitChannel ⟨0, 0⟩ ⟨[], [], []⟩ ⟨1, 3, memOf 65 [72, 101, 0], ⟨1, 5000⟩, 0⟩).outputFile =
      [48, 58, 48, 49, 46, 48, 48, 53, 58] ++ [72, 101] ++ [10] ∧
    (visitChannel ⟨0, 0⟩ ⟨[], [], []⟩ ⟨1, 3, memOf 65 [72, 101, 0], ⟨1, 5000⟩, 0⟩).stdout =
      [98, 117, 102, 102, 91, 105, 93, 32, 61, 61, 32, 48, 10] ++
        [48, 58, 48, 49, 46, 48, 48, 53, 58] ++ [72, 101] ++
        [98, 117, 102, 102, 91, 105, 93, 32, 61, 61, 32, 48, 10] ++ [10] ∧
    (visitChannel ⟨0, 0⟩ ⟨[], [], []⟩ ⟨1, 3, memOf 65 [72, 101, 0], ⟨1, 5000⟩, 0⟩).stdout ≠
      (visitChannel ⟨0, 0⟩ ⟨[], [], []⟩ ⟨1, 3, memOf 65 [72, 101, 0], ⟨1, 5000⟩, 0⟩).outputFile := by
  decide

/-- C7 (counterexample): when `select` reports the channel ready and `read`
returns 0, the error stream gains the message `read failed with errno 0`. -/
theorem visitChannel_zero_read_reports_error :
    (visitChannel ⟨0, 0⟩ ⟨[], [], []⟩ ⟨1, 0, memOf 65 [], ⟨1, 0⟩, 0⟩).stderr =
      [114, 101, 97, 100, 32, 102, 97, 105, 108, 101, 100, 32, 119, 105, 116, 104, 32,
        101, 114, 114, 110, 111, 32, 48, 10] ∧
    (visitChannel ⟨0, 0⟩ ⟨[], [], []⟩ ⟨1, 0, memOf 65 [], ⟨1, 0⟩, 0⟩).stderr ≠
      (Streams.mk [] [] []).stderr := by
  decide

/-- C7 (amended): when `select` reports a channel ready and `read` returns a
value that is not positive (zero bytes, or a negative value), the Reader adds
nothing to the log file and nothing to standard output, adds the message
`read failed with errno <errno>` to the error stream, and goes on with the
next channel; a read that returns a positive value adds nothing to the error
stream. -/
theorem visitChannel_nonpositive_read (startTV : Timeval) (st : Streams) (v : Visit)
    (rest : List Visit) (hsel : v.selectVal ≠ -1 ∧ v.selectVal ≠ 0) (hread : v.readVal ≤ 0) :
    (visitChannel startTV st v).outputFile = st.outputFile ∧
    (visitChannel startTV st v).stdout = st.stdout ∧
    (visitChannel startTV st v).stderr = st.stderr ++ readFailed v.errno ∧
    readFailed v.errno ≠ [] ∧
    sweep startTV st (v :: rest) = sweep startTV (visitChannel startTV st v) rest ∧
    (∀ w : Visit, w.selectVal ≠ -1 → 0 < w.readVal →
      (visitChannel startTV st w).stderr = st.stderr) := by
  have hnot : ¬ v.readVal > 0 := by omega
  refine ⟨?_, ?_, ?_, ?_, rfl, ?_⟩
  · simp [visitChannel, hsel.1, hsel.2, hnot]
  · simp [visitChannel, hsel.1, hsel.2, hnot]
  · simp [visitChannel, hsel.1, hsel.2, hnot]
  · simp [readFailed]
  · intro w hw1 hw2
    unfold visitChannel
    rw [if_neg hw1]
    split_ifs
    · simp only [deliver_stderr]
    · rfl

/-- Witness of C7 (amended): a ready channel whose read returns 0, with `errno` 9. -/
theorem visitChannel_nonpositive_read_witness :
    ((1 : Int) ≠ -1 ∧ (1 : Int) ≠ 0) ∧ (0 : Int) ≤ 0 ∧
    (visitChannel ⟨0, 0⟩ ⟨[1], [2], [3]⟩ ⟨1, 0, memOf 65 [], ⟨1, 0⟩, 9⟩).stderr =
      [3] ++ readFailed 9 :=
  ⟨by decide, by decide,
    (visitChannel_nonpositive_read ⟨0, 0⟩ ⟨[1], [2], [3]⟩ ⟨1, 0, memOf 65 [], ⟨1, 0⟩, 9⟩ []
      (by decide) (by decide)).2.2.1⟩

/-! ## Descriptors -/

theorem holdsAtCalls_append (P : Sys → FdTable → Bool) (a b : List Sys) :
    ∀ t : FdTable, holdsAtCalls P t (a ++ b) =
      (holdsAtCalls P t a && holdsAtCalls P (tableAfter t a) b) := by
  induction a with
  | nil => intro t; simp [holdsAtCalls, tableAfter]
  | cons c rest ih => intro t; simp [holdsAtCalls, tableAfter, ih, Bool.and_assoc]

theorem tableAfter_append (a b : List Sys) :
    ∀ t : FdTable, tableAfter t (a ++ b) = tableAfter (tableAfter t a) b := by
  induction a with
  | nil => intro t; rfl
  | cons c rest ih => intro t; simp [tableAfter, ih]

theorem applySys_wait (c : Sys) (hc : isWait c = true) (t : FdTable) : applySys t c = t := by
  cases c <;> simp [isWait] at hc <;> rfl

theorem tableAfter_keeps (l : List Sys) (hl : ∀ c ∈ l, ∀ t : FdTable, applySys t c = t) :
    ∀ t : FdTable, tableAfter t l = t := by
  induction l with
  | nil => intro t; rfl
  | cons c rest ih =>
    intro t
    have hc := hl c (List.mem_cons_self c rest) t
    have hrest := ih (fun d hd => hl d (List.mem_cons_of_mem c hd))
    simp only [tableAfter, hc, hrest]

theorem holdsAtCalls_keeps (P : Sys → FdTable → Bool) (l : List Sys)
    (hl : ∀ c ∈ l, ∀ t : FdTable, applySys t c = t) (t : FdTable)
    (hP : ∀ c ∈ l, P c t = true) :
    holdsAtCalls P t l = true := by
  induction l with
  | nil => rfl
  | cons c rest ih =>
    have hc := hl c (List.mem_cons_self c rest) t
    have hrest := ih (fun d hd => hl d (List.mem_cons_of_mem c hd))
      (fun d hd => hP d (List.mem_cons_of_mem c hd))
    simp only [holdsAtCalls, hc, hrest, hP c (List.mem_cons_self c rest), Bool.and_self]

theorem loop_calls_are_waits (sweeps : List (Nat → Bool)) :
    ∀ c ∈ sweeps.flatMap (fun ready =>
      (List.range numChildren).flatMap (fun i =>
        Sys.select i :: (if ready i then [Sys.read i] else []))), isWait c = true := by
  intro c hc
  simp only [List.mem_flatMap] at hc
  obtain ⟨ready, _, i, _, hmem⟩ := hc
  rcases List.mem_cons.mp hmem with h | h
  · rw [h]; rfl
  · split_ifs at h
    · rw [List.mem_singleton.mp h]; rfl
    · exact absurd h (List.not_mem_nil c)

theorem not_mem_after_close (t : FdTable) (d : Nat × PipeEnd) :
    d ∉ t.filter (fun x => x != d) := by
  simp

theorem producer_writes (ch : Nat) (gotLine : List Bool) :
    ∀ c ∈ gotLine.flatMap (fun g => if g then [Sys.write ch] else []), c = Sys.write ch := by
  intro c hc
  simp only [List.mem_flatMap] at hc
  obtain ⟨g, _, hmem⟩ := hc
  split_ifs at hmem
  · exact List.mem_singleton.mp hmem
  · exact absurd hmem (List.not_mem_nil c)

theorem producer_calls_shape (sweeps : List (Nat → Bool)) (gotLine : List Bool)
    (iters : Nat) (i : Nat) :
    ∃ writes : List Sys, (∀ c ∈ writes, c = Sys.write i) ∧
      makeChildrenCalls sweeps gotLine iters (Proc.child i) =
        Sys.close i PipeEnd.rd :: (writes ++ [Sys.close i PipeEnd.wr]) := by
  simp only [makeChildrenCalls]
  split_ifs
  · exact ⟨_, producer_writes i gotLine, rfl⟩
  · exact ⟨_, fun c hc => List.eq_of_mem_replicate hc, rfl⟩

/-- C8 (counterexample): in a run of the coordinator with one sweep, the
first call is the readiness wait on channel 0, the write end of channel 0 is
open at that moment, and the property that all write ends are closed at every
wait fails. -/
theorem coordinator_write_ends_open_at_first_wait :
    (makeChildrenCalls [fun _ => false] [] 0 Proc.parent).head? = some (Sys.select 0) ∧
    allOpen.contains (0, PipeEnd.wr) = true ∧
    holdsAtCalls (fun c t => !isWait c || writeEndsClosed t) allOpen
      (makeChildrenCalls [fun _ => false] [] 0 Proc.parent) = false := by
  decide

/-- C8 (amended): the coordinator's calls are the readiness waits and reads of
the multiplex loop followed by the closing loop, which closes the write end
and the read end of each of the 5 channels; it closes nothing before, so at
every readiness wait and every read both ends of all 5 channels are open (its
table is the inherited one, in particular every write end is open), and after
the closing loop it holds no channel descriptor.  The calls of every producer
are the close of its channel's read end, then its writes, then the close of
its write end: at each of its writes the table is the inherited one without
that read end. -/
theorem descriptors_during_loops (sweeps : List (Nat → Bool)) (gotLine : List Bool)
    (iters : Nat) (i : Nat) :
    allOpen = [(0, PipeEnd.rd), (0, PipeEnd.wr), (1, PipeEnd.rd), (1, PipeEnd.wr),
      (2, PipeEnd.rd), (2, PipeEnd.wr), (3, PipeEnd.rd), (3, PipeEnd.wr),
      (4, PipeEnd.rd), (4, PipeEnd.wr)] ∧
    (∃ loopCalls : List Sys, (∀ c ∈ loopCalls, isWait c = true) ∧
      makeChildrenCalls sweeps gotLine iters Proc.parent =
        loopCalls ++ [Sys.close 0 PipeEnd.wr, Sys.close 0 PipeEnd.rd,
          Sys.close 1 PipeEnd.wr, Sys.close 1 PipeEnd.rd,
          Sys.close 2 PipeEnd.wr, Sys.close 2 PipeEnd.rd,
          Sys.close 3 PipeEnd.wr, Sys.close 3 PipeEnd.rd,
          Sys.close 4 PipeEnd.wr, Sys.close 4 PipeEnd.rd]) ∧
    holdsAtCalls (fun c t => !isWait c || decide (t = allOpen)) allOpen
      (makeChildrenCalls sweeps gotLine iters Proc.parent) = true ∧
    holdsAtCalls (fun c t => !isWait c || writeEndsOpen t) allOpen
      (makeChildrenCalls sweeps gotLine iters Proc.parent) = true ∧
    tableAfter allOpen (makeChildrenCalls sweeps gotLine iters Proc.parent) = [] ∧
    (makeChildrenCalls sweeps gotLine iters (Proc.child i)).head? =
      some (Sys.close i PipeEnd.rd) ∧
    (∃ writes : List Sys, (∀ c ∈ writes, c = Sys.write i) ∧
      makeChildrenCalls sweeps gotLine iters (Proc.child i) =
        Sys.close i PipeEnd.rd :: (writes ++ [Sys.close i PipeEnd.wr])) ∧
    holdsAtCalls
      (fun c t => !isWrite c || decide (t = allOpen.filter (fun d => d != (i, PipeEnd.rd))))
      allOpen (makeChildrenCalls sweeps gotLine iters (Proc.child i)) = true ∧
    holdsAtCalls (fun c t => !isWrite c || !t.contains (i, PipeEnd.rd)) allOpen
      (makeChildrenCalls sweeps gotLine iters (Proc.child i)) = true := by
  have hw := loop_calls_are_waits sweeps
  have hkeep : ∀ c ∈ sweeps.flatMap (fun ready =>
      (List.range numChildren).flatMap (fun i =>
        Sys.select i :: (if ready i then [Sys.read i] else []))),
      ∀ t : FdTable, applySys t c = t := fun c hc t => applySys_wait c (hw c hc) t
  obtain ⟨writes, hwr, hshape⟩ := producer_calls_shape sweeps gotLine iters i
  have hkeepw : ∀ c ∈ writes, ∀ t : FdTable, applySys t c = t := by
    intro c hc t
    rw [hwr c hc]
    rfl
  refine ⟨by decide, ⟨_, hw, rfl⟩, ?_, ?_, ?_, ?_, ⟨writes, hwr, hshape⟩, ?_, ?_⟩
  · simp only [makeChildrenCalls, readFromPipesCalls]
    rw [holdsAtCalls_append, tableAfter_keeps _ hkeep,
      holdsAtCalls_keeps _ _ hkeep allOpen (fun c _ => by simp)]
    decide
  · simp only [makeChildrenCalls, readFromPipesCalls]
    rw [holdsAtCalls_append, tableAfter_keeps _ hkeep,
      holdsAtCalls_keeps _ _ hkeep allOpen (fun c _ => by
        have : writeEndsOpen allOpen = true := by decide
        simp [this])]
    decide
  · simp only [makeChildrenCalls, readFromPipesCalls]
    rw [tableAfter_append, tableAfter_keeps _ hkeep]
    decide
  · rw [hshape]
    rfl
  · rw [hshape]
    simp only [holdsAtCalls, applySys, isWrite, Bool.not_false, Bool.true_or, Bool.true_and]
    rw [holdsAtCalls_append, tableAfter_keeps _ hkeepw,
      holdsAtCalls_keeps _ _ hkeepw _ (fun c _ => by simp)]
    simp [holdsAtCalls, isWrite]
  · rw [hshape]
    simp only [holdsAtCalls, applySys, isWrite, Bool.not_false, Bool.true_or, Bool.true_and]
    rw [holdsAtCalls_append, tableAfter_keeps _ hkeepw,
      holdsAtCalls_keeps _ _ hkeepw _ (fun c _ => by
        have := not_mem_after_close allOpen (i, PipeEnd.rd)
        simp)]
    simp [holdsAtCalls, isWrite]

/-! ## The producers' messages -/

theorem cstr_no_zero (l : List Nat) : ∀ x ∈ cstr l, x ≠ 0 := by
  intro x hx
  have h := List.mem_takeWhile_imp hx
  simpa using h

theorem cstr_append_zero (a r : List Nat) (ha : ∀ x ∈ a, x ≠ 0) :
    cstr (a ++ 0 :: r) = a := by
  unfold cstr
  rw [List.takeWhile_append_of_pos (fun x hx => by simpa using ha x hx)]
  simp [List.takeWhile_cons]

theorem cstr_initial_length (a r : List Nat) : (cstr (a ++ 0 :: r)).length ≤ a.length := by
  induction a with
  | nil => simp [cstr, List.takeWhile_cons]
  | cons x rest ih =>
    unfold cstr at ih ⊢
    rw [List.cons_append, List.takeWhile_cons]
    split_ifs
    · simpa using ih
    · simp

theorem snprintfInto_short (dst text : List Nat) (h : text.length < BUFF_SIZE) :
    snprintfInto dst BUFF_SIZE text = text ++ 0 :: dst.drop (text.length + 1) := by
  have ht : text.take (BUFF_SIZE - 1) = text :=
    List.take_of_length_le (by simp only [BUFF_SIZE] at h ⊢; omega)
  unfold snprintfInto
  rw [if_neg (by decide)]
  simp only [ht]

theorem cstr_getTime_length (startTV now : Timeval) :
    (cstr (getTime startTV now)).length ≤ 9 := by
  unfold getTime snprintfInto
  simp only [TIME_BUFF_SIZE]
  rw [if_neg (by decide)]
  refine le_trans (cstr_initial_length _ _) ?_
  simp

theorem decDigitsAux_no_zero : ∀ (fuel n : Nat) (acc : List Nat),
    (∀ x ∈ acc, x ≠ 0) → ∀ x ∈ decDigitsAux fuel n acc, x ≠ 0 := by
  intro fuel
  induction fuel with
  | zero => intro n acc hacc x hx; exact hacc x (by simpa [decDigitsAux] using hx)
  | succ f ih =>
    intro n acc hacc x hx
    unfold decDigitsAux at hx
    split_ifs at hx
    · rcases List.mem_cons.mp hx with h | h
      · omega
      · exact hacc x h
    · refine ih (n / 10) _ ?_ x hx
      intro y hy
      rcases List.mem_cons.mp hy with h | h
      · omega
      · exact hacc y h

theorem decDigitsAux_length : ∀ (k fuel n : Nat) (acc : List Nat), n < 10 ^ (k + 1) →
    (decDigitsAux fuel n acc).length ≤ acc.length + (k + 1) := by
  intro k
  induction k with
  | zero =>
    intro fuel n acc hn
    cases fuel with
    | zero => simp [decDigitsAux]
    | succ f =>
      have h10 : n < 10 := by simpa using hn
      simp [decDigitsAux, h10]
  | succ k ih =>
    intro fuel n acc hn
    cases fuel with
    | zero => simp [decDigitsAux]
    | succ f =>
      unfold decDigitsAux
      split_ifs with h10
      · simp
      · have hq : n / 10 < 10 ^ (k + 1) := by
          rw [pow_succ] at hn
          omega
        have := ih f (n / 10) ((48 + n % 10) :: acc) hq
        simp only [List.length_cons] at this
        omega

theorem fmtD_no_zero (v : Int) : ∀ x ∈ fmtD 0 v, x ≠ 0 := by
  intro x hx
  have hd : ∀ y ∈ decDigits v.natAbs, y ≠ 0 :=
    decDigitsAux_no_zero _ _ [] (fun y hy => absurd hy (List.not_mem_nil y))
  unfold fmtD at hx
  simp only [Nat.zero_sub, List.replicate_zero, List.nil_append] at hx
  split_ifs at hx
  · rcases List.mem_cons.mp hx with h | h
    · omega
    · exact hd x h
  · exact hd x hx

theorem fmtD_length (v : Int) (h1 : -2147483648 ≤ v) (h2 : v < 2147483648) :
    (fmtD 0 v).length ≤ 11 := by
  have hd : (decDigits v.natAbs).length ≤ 10 := by
    have := decDigitsAux_length 9 (v.natAbs + 1) v.natAbs [] (by norm_num; omega)
    simpa [decDigits] using this
  unfold fmtD
  simp only [Nat.zero_sub, List.replicate_zero, List.nil_append]
  split_ifs
  · simp only [List.length_cons]; omega
  · omega

theorem lastChildText_no_zero (timeBuff line : List Nat) :
    ∀ x ∈ lastChildText timeBuff line, x ≠ 0 := by
  intro x hx
  simp only [lastChildText, List.mem_append, List.mem_singleton] at hx
  rcases hx with ((h | h) | h) | h
  · exact cstr_no_zero _ x h
  · omega
  · exact cstr_no_zero _ x h
  · omega

theorem writeToPipeText_no_zero (timeBuff : List Nat) (c m : Int) :
    ∀ x ∈ writeToPipeText timeBuff c m, x ≠ 0 := by
  intro x hx
  simp only [writeToPipeText, List.mem_append, List.mem_singleton] at hx
  rcases hx with ((((h | h) | h) | h) | h) | h
  · exact cstr_no_zero _ x h
  · intro h0; rw [h0] at h; revert h; decide
  · exact fmtD_no_zero c x h
  · intro h0; rw [h0] at h; revert h; decide
  · exact fmtD_no_zero m x h
  · omega

theorem writeToPipeText_length (startTV now : Timeval) (c m : Int)
    (hc : -2147483648 ≤ c ∧ c < 2147483648) (hm : -2147483648 ≤ m ∧ m < 2147483648) :
    (writeToPipeText (getTime startTV now) c m).length < BUFF_SIZE := by
  have h1 := cstr_getTime_length startTV now
  have h2 := fmtD_length c hc.1 hc.2
  have h3 := fmtD_length m hm.1 hm.2
  simp only [writeToPipeText, List.length_append, List.length_cons, List.length_nil, BUFF_SIZE]
  omega

theorem lastChildMessage_eq (buff : List Nat) (startTV now : Timeval) (line : List Nat)
    (hlen : (lastChildText (getTime startTV now) line).length < BUFF_SIZE) :
    lastChildMessage buff startTV now line =
      cstr (getTime startTV now) ++ [32] ++ cstr line := by
  have hz := lastChildText_no_zero (getTime startTV now) line
  unfold lastChildMessage
  simp only [snprintfInto_short _ _ hlen]
  have htext : lastChildText (getTime startTV now) line =
      (cstr (getTime startTV now) ++ [32] ++ cstr line) ++ [10] := rfl
  have hdrop : (lastChildText (getTime startTV now) line ++
        0 :: buff.drop ((lastChildText (getTime startTV now) line).length + 1)).drop 1 =
      (lastChildText (getTime startTV now) line).drop 1 ++
        0 :: buff.drop ((lastChildText (getTime startTV now) line).length + 1) := by
    rw [List.drop_append_of_le_length]
    rw [htext]
    simp only [List.length_append, List.length_singleton]
    omega
  rw [hdrop]
  unfold strlen
  rw [cstr_append_zero _ _ (fun x hx => hz x (List.mem_of_mem_drop hx))]
  have hl : ((lastChildText (getTime startTV now) line).drop 1).length =
      (cstr (getTime startTV now) ++ [32] ++ cstr line).length := by
    rw [htext]
    simp only [List.length_drop, List.length_append, List.length_singleton]
    omega
  rw [hl, htext, List.append_assoc (cstr (getTime startTV now) ++ [32] ++ cstr line)]
  exact List.take_left' rfl

theorem writeToPipeMessage_eq (buff : List Nat) (startTV now : Timeval) (c m : Int)
    (hc : -2147483648 ≤ c ∧ c < 2147483648) (hm : -2147483648 ≤ m ∧ m < 2147483648) :
    writeToPipeMessage buff startTV now c m =
      writeToPipeText (getTime startTV now) c m ++ [0] := by
  have hlen := writeToPipeText_length startTV now c m hc hm
  have hz := writeToPipeText_no_zero (getTime startTV now) c m
  unfold writeToPipeMessage
  simp only [snprintfInto_short _ _ hlen]
  unfold strlen
  rw [cstr_append_zero _ _ hz]
  have happ : writeToPipeText (getTime startTV now) c m ++
        0 :: buff.drop ((writeToPipeText (getTime startTV now) c m).length + 1) =
      (writeToPipeText (getTime startTV now) c m ++ [0]) ++
        buff.drop ((writeToPipeText (getTime startTV now) c m).length + 1) := by
    simp
  rw [happ]
  exact List.take_left' (by simp)

/-- C9: for every line the stdin-relay producer reads whose formatted text
(the label, a space, the line, a newline) is shorter than 1024 bytes, the bytes
handed to `write` are the label, a space and the line: the formatted text
without its final byte (the newline added by the format); their number is the
length measured from the second byte, one less than the full length, and no
NUL is among them.  The generator producer hands to `write` the label, the
text ` Child `, the decimal child number, the text ` message `, the decimal
message number, a newline, and then one NUL: its whole formatted text and one
byte more.  Child 3, message 12, 1.005 s after the mark gives
`0:01.005: Child 3 message 12`, newline, NUL. -/
theorem lastChild_omits_final_byte (buff : List Nat) (startTV now : Timeval) (line : List Nat)
    (hlen : (lastChildText (getTime startTV now) line).length < BUFF_SIZE) :
    lastChildMessage buff startTV now line =
      (lastChildText (getTime startTV now) line).dropLast ∧
    lastChildText (getTime startTV now) line = lastChildMessage buff startTV now line ++ [10] ∧
    lastChildMessage buff startTV now line = cstr (getTime startTV now) ++ [32] ++ cstr line ∧
    (lastChildMessage buff startTV now line).length =
      strlen ((lastChildText (getTime startTV now) line).drop 1) ∧
    (lastChildMessage buff startTV now line).length + 1 =
      (lastChildText (getTime startTV now) line).length ∧
    0 ∉ lastChildMessage buff startTV now line ∧
    (∀ (gbuff : List Nat) (childNum messageNum : Int),
      (-2147483648 ≤ childNum ∧ childNum < 2147483648) →
      (-2147483648 ≤ messageNum ∧ messageNum < 2147483648) →
      writeToPipeMessage gbuff startTV now childNum messageNum =
        writeToPipeText (getTime startTV now) childNum messageNum ++ [0] ∧
      writeToPipeMessage gbuff startTV now childNum messageNum =
        cstr (getTime startTV now) ++ [32, 67, 104, 105, 108, 100, 32] ++ fmtD 0 childNum ++
          [32, 109, 101, 115, 115, 97, 103, 101, 32] ++ fmtD 0 messageNum ++ [10] ++ [0] ∧
      0 ∉ writeToPipeText (getTime startTV now) childNum messageNum ∧
      (writeToPipeMessage gbuff startTV now childNum messageNum).length =
        (writeToPipeText (getTime startTV now) childNum messageNum).length + 1) ∧
    (∀ gbuff : List Nat,
      writeToPipeMessage gbuff ⟨0, 0⟩ ⟨1, 5000⟩ 3 12 =
        [48, 58, 48, 49, 46, 48, 48, 53, 58, 32, 67, 104, 105, 108, 100, 32, 51, 32,
          109, 101, 115, 115, 97, 103, 101, 32, 49, 50, 10, 0]) ∧
    (∀ gbuff : List Nat,
      lastChildMessage gbuff ⟨0, 0⟩ ⟨1, 5000⟩ [104, 105, 10, 0] =
        [48, 58, 48, 49, 46, 48, 48, 53, 58, 32, 104, 105, 10]) := by
  have hmsg := lastChildMessage_eq buff startTV now line hlen
  have htext : lastChildText (getTime startTV now) line =
      (cstr (getTime startTV now) ++ [32] ++ cstr line) ++ [10] := rfl
  have hz := lastChildText_no_zero (getTime startTV now) line
  refine ⟨?_, ?_, hmsg, ?_, ?_, ?_, ?_, ?_, ?_⟩
  · rw [hmsg, htext, List.dropLast_concat]
  · rw [hmsg, htext]
  · unfold strlen cstr
    rw [List.takeWhile_eq_self_iff.mpr (fun x hx => by
      simpa using hz x (List.mem_of_mem_drop hx))]
    rw [hmsg, htext]
    simp
  · rw [hmsg, htext]
    simp only [List.length_append, List.length_singleton]
  · intro h0
    rw [hmsg] at h0
    exact hz 0 (by rw [htext]; exact List.mem_append_left _ h0) rfl
  · intro gbuff childNum messageNum hc hm
    have hg := writeToPipeMessage_eq gbuff startTV now childNum messageNum hc hm
    refine ⟨hg, ?_, ?_, ?_⟩
    · rw [hg]
      rfl
    · intro h0
      exact writeToPipeText_no_zero (getTime startTV now) childNum messageNum 0 h0 rfl
    · rw [hg]
      simp
  · intro gbuff
    rw [writeToPipeMessage_eq gbuff ⟨0, 0⟩ ⟨1, 5000⟩ 3 12 (by decide) (by decide)]
    decide
  · intro gbuff
    rw [lastChildMessage_eq gbuff ⟨0, 0⟩ ⟨1, 5000⟩ [104, 105, 10, 0] (by decide)]
    decide

/-- Witness of C9: the line `hi` read 1.005 s after the mark, and message 12 of
child 3 at the same moment. -/
theorem lastChild_omits_final_byte_witness :
    (lastChildText (getTime ⟨0, 0⟩ ⟨1, 5000⟩) [104, 105, 10, 0]).length < BUFF_SIZE ∧
    lastChildText (getTime ⟨0, 0⟩ ⟨1, 5000⟩) [104, 105, 10, 0] =
      [48, 58, 48, 49, 46, 48, 48, 53, 58, 32, 104, 105, 10, 10] ∧
    lastChildMessage [] ⟨0, 0⟩ ⟨1, 5000⟩ [104, 105, 10, 0] =
      [48, 58, 48, 49, 46, 48, 48, 53, 58, 32, 104, 105, 10] ∧
    writeToPipeMessage [] ⟨0, 0⟩ ⟨1, 5000⟩ 3 12 =
      [48, 58, 48, 49, 46, 48, 48, 53, 58, 32, 67, 104, 105, 108, 100, 32, 51, 32,
        109, 101, 115, 115, 97, 103, 101, 32, 49, 50, 10, 0] :=
  ⟨by decide, by decide,
    ((lastChild_omits_final_byte [] ⟨0, 0⟩ ⟨1, 5000⟩ [104, 105, 10, 0] (by decide)).1).trans
      (by decide),
    (lastChild_omits_final_byte [] ⟨0, 0⟩ ⟨1, 5000⟩ [104, 105, 10, 0] (by decide)).2.2.2.2.2.2.2.1
      []⟩

end P6
